import Mathlib

/-!
Shallow embedding of `glean_parser/lint.py`: the metric data model, the
individual and category-level checks, and the `lint_metrics` driver, together
with theorems settling the frozen claims about them.
-/

namespace Glean

/-- A bug reference of a metric: Python stores either a bare `int` or a URL
string in `metric.bugs`; `isinstance(bug, int)` selects the first kind. -/
inductive Bug where
  | num (n : Int)
  | url (s : String)
deriving DecidableEq

/-- A metric record (post-validation), with exactly the fields the linter
reads.  `time_unit` / `memory_unit` hold the unit enum's `.name` string; a
`some` value models `hasattr(metric, ...)` being true. -/
structure Metric where
  category : String
  name : String
  bugs : List Bug := []
  send_in_pings : List String := []
  no_lint : List String := []
  time_unit : Option String := none
  memory_unit : Option String := none
  unit : Option String := none
deriving DecidableEq

/-- The parser configuration: only `allow_reserved` (default false) is read
by the linter (`parser_config.get("allow_reserved", False)`). -/
structure Config where
  allow_reserved : Bool := false
deriving DecidableEq

/-- A finding: `(check_name, scope_name, message)`. -/
abbrev Nit := String × String × String

/-- The splitter of `re.split("[._]", name)` on the character list: split on
`.` or `_`, keeping empty tokens (consecutive delimiters give empty tokens,
and the empty input gives one empty token). -/
def splitChars : List Char → List (List Char)
  | [] => [[]]
  | c :: cs =>
    if c = '.' ∨ c = '_' then [] :: splitChars cs
    else
      match splitChars cs with
      | [] => [[c]]
      | w :: ws => (c :: w) :: ws

/-- Helper function to split words on either `.` or `_`. -/
def split_words (name : String) : List String :=
  (splitChars name.data).map (fun w => String.mk w)

/-- Positional difference count over two character lists of equal length:
the `zip` loop of `_hamming_distance`. -/
def countDiffs : List Char → List Char → Nat
  | a :: as, b :: bs => (if a ≠ b then 1 else 0) + countDiffs as bs
  | _, _ => 0

/-- Count the number of differences between `str1` and `str2`, padding the
shorter one with whitespace (the swap in the source is inlined into the two
branches). -/
def hamming_distance (str1 str2 : String) : Nat :=
  if str1.length < str2.length then
    countDiffs str2.data (str1.data ++ List.replicate (str2.length - str1.length) ' ')
  else
    countDiffs str1.data (str2.data ++ List.replicate (str1.length - str2.length) ' ')

/-- Python's `<` on strings: lexicographic comparison of the character
sequences by code point. -/
def strLt (a b : String) : Bool := decide (a.data < b.data)

/-- Python's `<=` on strings, likewise by code point. -/
def strLe (a b : String) : Bool := decide (a.data ≤ b.data)

/-- Python's `<=` on lists of strings: lexicographic comparison, elementwise
by the string order. -/
def listLe : List String → List String → Bool
  | [], _ => true
  | _ :: _, [] => false
  | a :: as, b :: bs =>
    if strLt a b then true
    else if strLt b a then false
    else listLe as bs

/-- Insertion step of a stable insertion sort with respect to a boolean
`le` relation. -/
def insertLe {α : Type} (le : α → α → Bool) (x : α) : List α → List α
  | [] => [x]
  | y :: ys => if le x y then x :: y :: ys else y :: insertLe le x ys

/-- Stable insertion sort with respect to a boolean `le` relation: the model
of Python's `sorted`. -/
def sortLe {α : Type} (le : α → α → Bool) : List α → List α
  | [] => []
  | x :: xs => insertLe le x (sortLe le xs)

/-- Key order on association-list entries: `sorted(list(d.items()))` on a
dict compares the (unique) keys first, so only the keys decide. -/
def keyLe {β : Type} (a b : String × β) : Bool := strLe a.1 b.1

/-- The final value of `i` in the for/break loop of `check_common_prefix`:
walking positions `0 ..< min(len first, len last)`, it is the first position
where the sequences differ; if all compared positions agree the loop runs out
and `i` keeps its last value, `min(len first, len last) - 1`; `0` when
nothing is compared. -/
def loopBreakIdx : List String → List String → Nat
  | a :: as, b :: bs =>
    if a ≠ b then 0
    else if as = [] ∨ bs = [] then 0
    else loopBreakIdx as bs + 1
  | _, _ => 0

/-- The message of `check_common_prefix`. -/
def commonPrefixMsg (category_name common : String) : String :=
  "Within category '" ++ category_name ++ "', all metrics begin with prefix '" ++
    common ++ "'. Remove prefixes and (possibly) rename category."

/-- Check if all metrics begin with a common prefix. -/
def check_common_prefix (category_name : String) (metrics : List Metric) : List String :=
  let metric_words := sortLe listLe (metrics.map (fun m => split_words m.name))
  if metric_words.length < 2 then []
  else
    let first := metric_words.headD []
    let lastW := metric_words.getLastD []
    let i := loopBreakIdx first lastW
    if 0 < i then
      [commonPrefixMsg category_name (String.intercalate "_" (first.take i))]
    else []

/-- The abbreviation table for time units. -/
def TIME_UNIT_ABBREV : List (String × String) :=
  [("nanosecond", "ns"), ("microsecond", "us"), ("millisecond", "ms"),
   ("second", "s"), ("minute", "m"), ("hour", "h"), ("day", "d")]

/-- The abbreviation table for memory units. -/
def MEMORY_UNIT_ABBREV : List (String × String) :=
  [("byte", "b"), ("kilobyte", "kb"), ("megabyte", "mb"), ("gigabyte", "gb")]

/-- The redundant-suffix message for the time-unit branch. -/
def timeRedundantMsg (u : String) : String :=
  "Suffix '" ++ u ++ "' is redundant with time_unit. Only include time_unit."

/-- The mismatched-suffix message for the time-unit branch. -/
def timeMismatchMsg (u : String) : String :=
  "Suffix '" ++ u ++ "' doesn't match time_unit. " ++
    "Confirm the unit is correct and only include time_unit."

/-- The redundant-suffix message for the memory-unit branch. -/
def memoryRedundantMsg (u : String) : String :=
  "Suffix '" ++ u ++ "' is redundant with memory_unit. Only include memory_unit."

/-- The mismatched-suffix message for the memory-unit branch. -/
def memoryMismatchMsg (u : String) : String :=
  "Suffix '" ++ u ++ "' doesn't match memory_unit. " ++
    "Confirm the unit is correct and only include memory_unit."

/-- The redundant-suffix message for the plain-unit branch. -/
def unitRedundantMsg (u : String) : String :=
  "Suffix '" ++ u ++ "' is redundant with unit param. Only include unit."

/-- The metric name ends in a unit. -/
def check_unit_in_name (metric : Metric) (_parser_config : Config) : List String :=
  let name_words := split_words metric.name
  let unit_in_name := name_words.getLastD ""
  match metric.time_unit with
  | some tu =>
    if TIME_UNIT_ABBREV.lookup tu = some unit_in_name ∨ unit_in_name = tu then
      [timeRedundantMsg unit_in_name]
    else if unit_in_name ∈ TIME_UNIT_ABBREV.map Prod.fst
        ∨ unit_in_name ∈ TIME_UNIT_ABBREV.map Prod.snd then
      [timeMismatchMsg unit_in_name]
    else []
  | none =>
    match metric.memory_unit with
    | some mu =>
      if MEMORY_UNIT_ABBREV.lookup mu = some unit_in_name ∨ unit_in_name = mu then
        [memoryRedundantMsg unit_in_name]
      else if unit_in_name ∈ MEMORY_UNIT_ABBREV.map Prod.fst
          ∨ unit_in_name ∈ MEMORY_UNIT_ABBREV.map Prod.snd then
        [memoryMismatchMsg unit_in_name]
      else []
    | none =>
      match metric.unit with
      | some u =>
        if unit_in_name = u then [unitRedundantMsg unit_in_name] else []
      | none => []

/-- The denylist of too-generic category names. -/
def GENERIC_CATEGORIES : List String := ["metrics", "events"]

/-- The category name is too generic. -/
def check_category_generic (category_name : String) (_metrics : List Metric) : List String :=
  if category_name ∈ GENERIC_CATEGORIES then
    ["Category '" ++ category_name ++ "' is too generic."]
  else []

/-- Bug references that are bare numbers are deprecated. -/
def check_bug_number (metric : Metric) (_parser_config : Config) : List String :=
  let number_bugs := metric.bugs.filterMap (fun b =>
    match b with
    | .num n => some (toString n)
    | .url _ => none)
  if number_bugs.length ≠ 0 then
    ["For bugs " ++ String.intercalate ", " number_bugs ++
      ": Bug numbers are deprecated and should be changed to full URLs."]
  else []

/-- The baseline ping is reserved unless `allow_reserved` is set. -/
def check_valid_in_baseline (metric : Metric) (parser_config : Config) : List String :=
  if ¬ parser_config.allow_reserved ∧ "baseline" ∈ metric.send_in_pings then
    ["The baseline ping is Glean-internal. " ++
      "User metrics should go into the 'metrics' ping or custom pings."]
  else []

/-- The builtin ping names that misspellings are checked against. -/
def builtin_pings : List String := ["metrics", "events"]

/-- The message of `check_misspelled_pings`. -/
def misspelledMsg (ping builtin : String) : String :=
  "Ping '" ++ ping ++ "' seems misspelled. Did you mean '" ++ builtin ++ "'?"

/-- A ping name at similarity score exactly 1 from a builtin ping name looks
misspelled. -/
def check_misspelled_pings (metric : Metric) (_parser_config : Config) : List String :=
  metric.send_in_pings.flatMap (fun ping =>
    builtin_pings.flatMap (fun builtin =>
      if hamming_distance ping builtin = 1 then [misspelledMsg ping builtin] else []))

/-- The category-level check registry, in its fixed iteration order. -/
def CATEGORY_CHECKS : List (String × (String → List Metric → List String)) :=
  [("COMMON_PREFIX", check_common_prefix), ("CATEGORY_GENERIC", check_category_generic)]

/-- The individual-level check registry, in its fixed iteration order. -/
def INDIVIDUAL_CHECKS : List (String × (Metric → Config → List String)) :=
  [("UNIT_IN_NAME", check_unit_in_name), ("BUG_NUMBER", check_bug_number),
   ("BASELINE_PING", check_valid_in_baseline), ("MISSPELLED_PING", check_misspelled_pings)]

/-- The superfluous-suppression message. -/
def superfluousMsg (check_name : String) : String :=
  "Superfluous no_lint entry '" ++ check_name ++ "'. Please remove it."

/-- The body of the individual-check loop of `lint_metrics` for one metric
and one registry entry: a non-empty result is either dropped (check name
suppressed in `no_lint`) or recorded scoped to `category.name`; an empty
result whose check name is suppressed (and is not a category-level check
name) yields one `SUPERFLUOUS_NO_LINT` nit. -/
def metricBlock (parser_config : Config) (metric : Metric)
    (cf : String × (Metric → Config → List String)) : List Nit :=
  let new_nits := cf.2 metric parser_config
  if new_nits.length ≠ 0 then
    if cf.1 ∉ metric.no_lint then
      new_nits.map (fun msg => (cf.1, metric.category ++ "." ++ metric.name, msg))
    else []
  else
    if cf.1 ∉ CATEGORY_CHECKS.map Prod.fst ∧ cf.1 ∈ metric.no_lint then
      [("SUPERFLUOUS_NO_LINT", metric.category ++ "." ++ metric.name, superfluousMsg cf.1)]
    else []

/-- The nits the individual checks contribute for one metric, in registry
order. -/
def metricNits (parser_config : Config) (metric : Metric) : List Nit :=
  INDIVIDUAL_CHECKS.flatMap (metricBlock parser_config metric)

/-- The body of the category-check loop of `lint_metrics` for one category
and one registry entry: a check that any metric of the category suppresses
is skipped wholesale; otherwise its messages are recorded scoped to the
category name. -/
def categoryBlock (category_name : String) (metrics : List (String × Metric))
    (cf : String × (String → List Metric → List String)) : List Nit :=
  if ∃ km ∈ metrics, cf.1 ∈ km.2.no_lint then []
  else (cf.2 category_name (metrics.map Prod.snd)).map
    (fun msg => (cf.1, category_name, msg))

/-- The category-level nits for one category, in registry order. -/
def categoryNits (category_name : String) (metrics : List (String × Metric)) : List Nit :=
  CATEGORY_CHECKS.flatMap (categoryBlock category_name metrics)

/-- Performs glinter checks on a tree of metric objects (category name to
metric name to metric, as an association list); returns the list of nits.
Categories are visited in sorted order, `"pings"` is skipped, category-level
nits precede the per-metric nits of the metrics in sorted name order. -/
def lint_metrics (objs : List (String × List (String × Metric)))
    (parser_config : Config) : List Nit :=
  (sortLe keyLe objs).flatMap (fun cm =>
    if cm.1 = "pings" then []
    else
      categoryNits cm.1 cm.2 ++
        (sortLe keyLe cm.2).flatMap (fun km => metricNits parser_config km.2))

/-! ### Generic lemmas about the insertion sort -/

theorem mem_insertLe {α : Type} (le : α → α → Bool) (x y : α) (l : List α) :
    y ∈ insertLe le x l ↔ y = x ∨ y ∈ l := by
  induction l with
  | nil => simp [insertLe]
  | cons z zs ih =>
    simp only [insertLe]
    split
    · simp [List.mem_cons]
    · simp only [List.mem_cons, ih]
      tauto

theorem mem_sortLe {α : Type} (le : α → α → Bool) (x : α) (l : List α) :
    x ∈ sortLe le l ↔ x ∈ l := by
  induction l with
  | nil => simp [sortLe]
  | cons z zs ih => simp [sortLe, mem_insertLe, ih]

theorem length_insertLe {α : Type} (le : α → α → Bool) (x : α) (l : List α) :
    (insertLe le x l).length = l.length + 1 := by
  induction l with
  | nil => rfl
  | cons z zs ih =>
    simp only [insertLe]
    split
    · rfl
    · simp [ih]

theorem length_sortLe {α : Type} (le : α → α → Bool) (l : List α) :
    (sortLe le l).length = l.length := by
  induction l with
  | nil => rfl
  | cons z zs ih => simp [sortLe, length_insertLe, ih]

theorem perm_sortLe {α : Type} (le : α → α → Bool) (l : List α) :
    (sortLe le l).Perm l := by
  induction l with
  | nil => exact List.Perm.refl _
  | cons z zs ih =>
    have h : ∀ (x : α) (m : List α), (insertLe le x m).Perm (x :: m) := by
      intro x m
      induction m with
      | nil => exact List.Perm.refl _
      | cons y ys ihm =>
        simp only [insertLe]
        split
        · exact List.Perm.refl _
        · exact (ihm.cons y).trans (List.Perm.swap x y ys)
    exact (h z (sortLe le zs)).trans (ih.cons z)

theorem pairwise_insertLe {α : Type} (le : α → α → Bool)
    (htot : ∀ a b, le a b = true ∨ le b a = true)
    (htrans : ∀ a b c, le a b = true → le b c = true → le a c = true)
    (x : α) (l : List α) (hl : l.Pairwise (fun a b => le a b = true)) :
    (insertLe le x l).Pairwise (fun a b => le a b = true) := by
  induction l with
  | nil => simp [insertLe]
  | cons z zs ih =>
    rcases List.pairwise_cons.mp hl with ⟨hz, hzs⟩
    simp only [insertLe]
    split
    · next hle =>
      refine List.pairwise_cons.mpr ⟨?_, hl⟩
      intro b hb
      rcases List.mem_cons.mp hb with rfl | hb
      · exact hle
      · exact htrans x z b hle (hz b hb)
    · next hle =>
      refine List.pairwise_cons.mpr ⟨?_, ih hzs⟩
      intro b hb
      rcases (mem_insertLe le x b zs).mp hb with rfl | hb
      · rcases htot z b with h | h
        · exact h
        · exact absurd h hle
      · exact hz b hb

theorem pairwise_sortLe {α : Type} (le : α → α → Bool)
    (htot : ∀ a b, le a b = true ∨ le b a = true)
    (htrans : ∀ a b c, le a b = true → le b c = true → le a c = true)
    (l : List α) : (sortLe le l).Pairwise (fun a b => le a b = true) := by
  induction l with
  | nil => simp [sortLe]
  | cons z zs ih => exact pairwise_insertLe le htot htrans z _ ih

theorem insertLe_eq_cons {α : Type} (le : α → α → Bool) (x : α) (m : List α)
    (h : ∀ b ∈ m, le x b = true) : insertLe le x m = x :: m := by
  cases m with
  | nil => rfl
  | cons b bs => simp [insertLe, h b (List.mem_cons_self b bs)]

theorem filter_insertLe_neg {α : Type} (le : α → α → Bool) (p : α → Bool)
    (x : α) (l : List α) (hx : p x = false) :
    (insertLe le x l).filter p = l.filter p := by
  induction l with
  | nil => simp [insertLe, hx]
  | cons y ys ih =>
    simp only [insertLe]
    split
    · simp [List.filter_cons, hx]
    · simp [List.filter_cons, ih]

theorem filter_insertLe_pos {α : Type} (le : α → α → Bool)
    (htrans : ∀ a b c, le a b = true → le b c = true → le a c = true)
    (p : α → Bool) (x : α) (l : List α) (hx : p x = true)
    (hl : l.Pairwise (fun a b => le a b = true)) :
    (insertLe le x l).filter p = insertLe le x (l.filter p) := by
  induction l with
  | nil => simp [insertLe, hx]
  | cons y ys ih =>
    rcases List.pairwise_cons.mp hl with ⟨hy, hys⟩
    simp only [insertLe]
    split
    · next hle =>
      by_cases hpy : p y = true
      · simp [List.filter_cons, hx, hpy, insertLe, hle]
      · have hall : ∀ b ∈ ys.filter p, le x b = true := fun b hb =>
          htrans x y b hle (hy b (List.mem_of_mem_filter hb))
        simp [List.filter_cons, hx, hpy, insertLe_eq_cons le x (ys.filter p) hall]
    · next hle =>
      by_cases hpy : p y = true
      · simp [List.filter_cons, hpy, ih hys, insertLe, hle]
      · simp [List.filter_cons, hpy, ih hys]

theorem filter_sortLe {α : Type} (le : α → α → Bool)
    (htot : ∀ a b, le a b = true ∨ le b a = true)
    (htrans : ∀ a b c, le a b = true → le b c = true → le a c = true)
    (p : α → Bool) (l : List α) :
    (sortLe le l).filter p = sortLe le (l.filter p) := by
  induction l with
  | nil => rfl
  | cons x xs ih =>
    simp only [sortLe]
    by_cases hx : p x = true
    · rw [filter_insertLe_pos le htrans p x _ hx (pairwise_sortLe le htot htrans xs), ih]
      simp [List.filter_cons, hx, sortLe]
    · rw [filter_insertLe_neg le p x _ (by simpa using hx), ih]
      simp [List.filter_cons, hx]

/-! ### Order facts for the comparison keys -/

theorem strLe_total (a b : String) : strLe a b = true ∨ strLe b a = true := by
  simp only [strLe, decide_eq_true_eq]
  exact le_total a.data b.data

theorem strLe_trans (a b c : String) (h1 : strLe a b = true)
    (h2 : strLe b c = true) : strLe a c = true := by
  simp only [strLe, decide_eq_true_eq] at h1 h2 ⊢
  exact le_trans h1 h2

theorem keyLe_total {β : Type} (a b : String × β) :
    keyLe a b = true ∨ keyLe b a = true :=
  strLe_total a.1 b.1

theorem keyLe_trans {β : Type} (a b c : String × β) (h1 : keyLe a b = true)
    (h2 : keyLe b c = true) : keyLe a c = true :=
  strLe_trans a.1 b.1 c.1 h1 h2

theorem strLt_trans {a b c : String} (h1 : strLt a b = true)
    (h2 : strLt b c = true) : strLt a c = true := by
  simp only [strLt, decide_eq_true_eq] at h1 h2 ⊢
  exact lt_trans h1 h2

theorem strLt_irrefl (a : String) : strLt a a = false := by
  simp [strLt]

theorem listLe_total (a b : List String) : listLe a b = true ∨ listLe b a = true := by
  induction a generalizing b with
  | nil => exact Or.inl rfl
  | cons x as ih =>
    cases b with
    | nil => exact Or.inr rfl
    | cons y bs =>
      by_cases hxy : strLt x y = true
      · exact Or.inl (by simp [listLe, hxy])
      · by_cases hyx : strLt y x = true
        · exact Or.inr (by simp [listLe, hyx])
        · rcases ih bs with h | h
          · exact Or.inl (by simp [listLe, hxy, hyx, h])
          · exact Or.inr (by simp [listLe, hxy, hyx, h])

theorem listLe_cons_elim {x y : String} {as bs : List String}
    (h : listLe (x :: as) (y :: bs) = true) :
    strLt x y = true ∨ (x = y ∧ listLe as bs = true) := by
  by_cases hxy : strLt x y = true
  · exact Or.inl hxy
  · by_cases hyx : strLt y x = true
    · simp [listLe, hxy, hyx] at h
    · refine Or.inr ⟨?_, by simpa [listLe, hxy, hyx] using h⟩
      have h1 : ¬ x.data < y.data := by simpa [strLt] using hxy
      have h2 : ¬ y.data < x.data := by simpa [strLt] using hyx
      have hdata : x.data = y.data := le_antisymm (not_lt.mp h2) (not_lt.mp h1)
      cases x
      cases y
      exact congrArg String.mk hdata

theorem listLe_trans :
    ∀ (a b c : List String), listLe a b = true → listLe b c = true →
      listLe a c = true
  | [], _, _, _, _ => rfl
  | _ :: _, [], _, hab, _ => by simp [listLe] at hab
  | _ :: _, _ :: _, [], _, hbc => by simp [listLe] at hbc
  | x :: as, y :: bs, z :: cs, hab, hbc => by
    rcases listLe_cons_elim hab with h1 | ⟨rfl, h1⟩
    · rcases listLe_cons_elim hbc with h2 | ⟨rfl, h2⟩
      · simp [listLe, strLt_trans h1 h2]
      · simp [listLe, h1]
    · rcases listLe_cons_elim hbc with h2 | ⟨rfl, h2⟩
      · simp [listLe, h2]
      · simp [listLe, strLt_irrefl, listLe_trans as bs cs h1 h2]

/-! ### Lemmas about the similarity scorer -/

theorem countDiffs_comm : ∀ (as bs : List Char), countDiffs as bs = countDiffs bs as
  | [], [] => rfl
  | [], _ :: _ => rfl
  | _ :: _, [] => rfl
  | a :: as, b :: bs => by
    simp only [countDiffs, countDiffs_comm as bs]
    by_cases h : a = b
    · simp [h]
    · simp [h, Ne.symm h]

theorem countDiffs_self : ∀ (as : List Char), countDiffs as as = 0
  | [] => rfl
  | a :: as => by simp [countDiffs, countDiffs_self as]

/-- C9: the similarity scorer is symmetric, and identical strings score 0:
the swap before padding makes the score independent of argument order even
though only the shorter argument is padded. -/
theorem C9_hamming_symm (a b : String) :
    hamming_distance a b = hamming_distance b a ∧
      (a = b → hamming_distance a b = 0) := by
  constructor
  · unfold hamming_distance
    rcases Nat.lt_trichotomy a.length b.length with h | h | h
    · rw [if_pos h, if_neg (by omega)]
    · rw [if_neg (by omega), if_neg (by omega)]
      have hz : a.length - b.length = 0 := by omega
      have hz' : b.length - a.length = 0 := by omega
      simp [hz, hz', countDiffs_comm]
    · rw [if_neg (by omega), if_pos h]
  · rintro rfl
    unfold hamming_distance
    rw [if_neg (Nat.lt_irrefl _)]
    simp [Nat.sub_self, countDiffs_self]

/-- C9 witness: the theorem at the concrete strings ab and abc, and at ab
with itself. -/
theorem C9_hamming_symm_witness :
    hamming_distance "ab" "abc" = hamming_distance "abc" "ab" ∧
      hamming_distance "ab" "ab" = 0 :=
  ⟨(C9_hamming_symm "ab" "abc").1, (C9_hamming_symm "ab" "ab").2 rfl⟩

/-! ### Lemmas about the tokenizer -/

theorem splitChars_ne_nil (cs : List Char) : splitChars cs ≠ [] := by
  cases cs with
  | nil => simp [splitChars]
  | cons c cs =>
    simp only [splitChars]
    split
    · simp
    · split <;> simp

theorem split_words_ne_nil (name : String) : split_words name ≠ [] := by
  simp [split_words, splitChars_ne_nil]

theorem getLastD_mem {α : Type} (l : List α) (d : α) (h : l ≠ []) :
    l.getLastD d ∈ l := by
  cases l with
  | nil => exact absurd rfl h
  | cons x xs => simp [List.getLastD, List.getLastD_mem_cons xs x]

/-- C10: the tokenizer never returns an empty token list (the empty name
gives one empty token), so the last-token access of `check_unit_in_name` is
always an actual token of the split name and the check is total. -/
theorem C10_split_words_total (name : String) :
    split_words name ≠ [] ∧
      (split_words name).getLastD "" ∈ split_words name := by
  have h := split_words_ne_nil name
  exact ⟨h, getLastD_mem _ _ h⟩

/-- C10 witness: the theorem at the empty string and at a name with trailing
delimiters. -/
theorem C10_split_words_total_witness :
    (split_words "" ≠ [] ∧ (split_words "").getLastD "" ∈ split_words "") ∧
      (split_words "a.._" ≠ [] ∧
        (split_words "a.._").getLastD "" ∈ split_words "a.._") :=
  ⟨C10_split_words_total "", C10_split_words_total "a.._"⟩

/-! ### The common-prefix check -/

/-- Position of the first diverging token of two token sequences, when they
diverge within the length of the shorter one. -/
def firstDivergence : List String → List String → Option Nat
  | a :: as, b :: bs =>
    if a ≠ b then some 0 else (firstDivergence as bs).map (· + 1)
  | _, _ => none

/-- The prefix length the source loop actually computes: the first-divergence
position when the compared ranges diverge, and otherwise one less than the
number of compared positions. -/
def commonRunIdx (first lastW : List String) : Nat :=
  match firstDivergence first lastW with
  | some j => j
  | none => min first.length lastW.length - 1

theorem firstDivergence_nil_left (bs : List String) :
    firstDivergence [] bs = none := rfl

theorem firstDivergence_nil_right (as : List String) :
    firstDivergence as [] = none := by
  cases as <;> rfl

theorem loopBreakIdx_eq (a b : List String) : loopBreakIdx a b = commonRunIdx a b := by
  induction a generalizing b with
  | nil => cases b <;> simp [loopBreakIdx, commonRunIdx, firstDivergence]
  | cons x as ih =>
    cases b with
    | nil => simp [loopBreakIdx, commonRunIdx, firstDivergence_nil_right]
    | cons y bs =>
      by_cases hxy : x = y
      · subst hxy
        have hmap : firstDivergence (x :: as) (x :: bs) =
            (firstDivergence as bs).map (· + 1) := by
          simp [firstDivergence]
        by_cases hnil : as = [] ∨ bs = []
        · have hfd : firstDivergence as bs = none := by
            rcases hnil with h | h
            · rw [h]; exact firstDivergence_nil_left bs
            · rw [h]; exact firstDivergence_nil_right as
          have h0 : loopBreakIdx (x :: as) (x :: bs) = 0 := by
            simp only [loopBreakIdx]
            rw [if_neg (by simp), if_pos hnil]
          have h1 : commonRunIdx (x :: as) (x :: bs) = 0 := by
            unfold commonRunIdx
            rw [hmap, hfd]
            rcases hnil with h | h <;> subst h <;> simp
          rw [h0, h1]
        · have h0 : loopBreakIdx (x :: as) (x :: bs) = loopBreakIdx as bs + 1 := by
            simp only [loopBreakIdx]
            rw [if_neg (by simp), if_neg hnil]
          push_neg at hnil
          rw [h0, ih bs]
          unfold commonRunIdx
          rw [hmap]
          cases hfd : firstDivergence as bs with
          | some j => simp [hfd]
          | none =>
            have hlen1 : 0 < as.length := List.length_pos.mpr hnil.1
            have hlen2 : 0 < bs.length := List.length_pos.mpr hnil.2
            simp only [hfd, Option.map_none', List.length_cons]
            omega
      · simp [loopBreakIdx, commonRunIdx, firstDivergence, hxy]

/-- C1 (amended): for a category with at least two metrics, with `ws` the
sorted list of token sequences (sortedness is part of the statement, so its
first and last entries are the lexicographic min and max), the check emits
exactly one message naming the `_`-join of the first `i` tokens of the min
sequence, where `i` is the position of the first divergence between min and
max when they diverge within the compared range, and one less than the
number of compared positions when they do not; no message when `i = 0`
(in particular when min and max diverge at position 0), and no message for
categories with fewer than two metrics. -/
theorem C1_common_prefix_amended (category_name : String) (metrics : List Metric) :
    (metrics.length < 2 → check_common_prefix category_name metrics = []) ∧
    (2 ≤ metrics.length →
      (sortLe listLe (metrics.map (fun m => split_words m.name))).Pairwise
          (fun u v => listLe u v = true) ∧
      check_common_prefix category_name metrics =
        (let ws := sortLe listLe (metrics.map (fun m => split_words m.name))
         let i := commonRunIdx (ws.headD []) (ws.getLastD [])
         if 0 < i then
           [commonPrefixMsg category_name
             (String.intercalate "_" ((ws.headD []).take i))]
         else [])) := by
  have hlen : (sortLe listLe (metrics.map (fun m => split_words m.name))).length =
      metrics.length := by
    rw [length_sortLe, List.length_map]
  constructor
  · intro h
    simp only [ check_common_prefix]
    rw [if_pos (by omega)]
  · intro h
    refine ⟨pairwise_sortLe listLe listLe_total listLe_trans _, ?_⟩
    simp only [ check_common_prefix]
    rw [if_neg (by omega), loopBreakIdx_eq]

/-- A metric named a_b. -/
def metricAB : Metric := { category := "cat", name := "a_b" }

/-- A metric named a_b_c. -/
def metricABC : Metric := { category := "cat", name := "a_b_c" }

/-- A metric named x_a. -/
def metricXA : Metric := { category := "telemetry", name := "x_a" }

/-- A metric named x_b. -/
def metricXB : Metric := { category := "telemetry", name := "x_b" }

/-- C1 counterexample: the metrics a_b and a_b_c have token sequences that
agree on the full leading run a, b (the min sequence is even a prefix of the
max), yet the emitted message names only a, not the full matching run a_b:
the loop index stops one short when the compared ranges never diverge. -/
theorem C1_counterexample :
    check_common_prefix "cat" [metricAB, metricABC] =
      [commonPrefixMsg "cat" "a"] ∧
    check_common_prefix "cat" [metricAB, metricABC] ≠
      [commonPrefixMsg "cat" "a_b"] ∧
    split_words "a_b" = ["a", "b"] ∧ split_words "a_b_c" = ["a", "b", "c"] := by
  refine ⟨rfl, ?_, rfl, rfl⟩
  decide

/-- C1 witness: the amended theorem applied to a one-metric category (no
message) and to a two-metric category diverging at token 1 (one message
naming the single shared leading token). -/
theorem C1_common_prefix_amended_witness :
    check_common_prefix "cat" [metricAB] = [] ∧
    check_common_prefix "telemetry" [metricXA, metricXB] =
      [commonPrefixMsg "telemetry" "x"] := by
  constructor
  · exact (C1_common_prefix_amended "cat" [metricAB]).1 (by decide)
  · have h := ((C1_common_prefix_amended "telemetry" [metricXA, metricXB]).2
      (by decide)).2
    rw [h]
    decide

/-! ### The misspelled-pings check -/

/-- A metric that only fixes the ping list. -/
def metricPing (pings : List String) : Metric :=
  { category := "c", name := "m", send_in_pings := pings }

/-- C2 counterexample: with send_in_pings = [events2] the check does emit a
message, though the claim predicted none: the similarity score of events2
against events is exactly 1, because padding events with one space leaves the
final position as the single positional mismatch. -/
theorem C2_counterexample :
    check_misspelled_pings (metricPing ["events2"]) {} =
      [misspelledMsg "events2" "events"] ∧
    check_misspelled_pings (metricPing ["events2"]) {} ≠ [] ∧
    hamming_distance "events2" "events" = 1 := by
  refine ⟨rfl, ?_, rfl⟩
  decide

/-- C2 (amended): a metric whose send_in_pings is exactly [metric] gets
exactly one message suggesting metrics; a metric whose send_in_pings is
exactly [events2] gets exactly one message suggesting events, since its
score against events is exactly 1 (the padded position is the single
mismatch) and the score-equals-1 trigger fires. -/
theorem C2_misspelled_amended (m : Metric) (cfg : Config) :
    (m.send_in_pings = ["metric"] →
      check_misspelled_pings m cfg = [misspelledMsg "metric" "metrics"]) ∧
    (m.send_in_pings = ["events2"] →
      check_misspelled_pings m cfg = [misspelledMsg "events2" "events"]) := by
  constructor <;> intro h <;> simp only [check_misspelled_pings, h] <;> decide

/-- C2 witness: the amended theorem at concrete metrics. -/
theorem C2_misspelled_amended_witness :
    check_misspelled_pings (metricPing ["metric"]) {} =
      [misspelledMsg "metric" "metrics"] ∧
    check_misspelled_pings (metricPing ["events2"]) {} =
      [misspelledMsg "events2" "events"] :=
  ⟨(C2_misspelled_amended (metricPing ["metric"]) {}).1 rfl,
   (C2_misspelled_amended (metricPing ["events2"]) {}).2 rfl⟩

/-! ### The unit-in-name check -/

theorem lookup_eq_some_iff_mem :
    ∀ (l : List (String × String)), (l.map Prod.fst).Nodup →
      ∀ (k v : String), l.lookup k = some v ↔ (k, v) ∈ l
  | [], _, k, v => by simp
  | (k', v') :: ps, hnd, k, v => by
    rw [List.map_cons, List.nodup_cons] at hnd
    by_cases hk : k = k'
    · subst hk
      rw [List.lookup_cons_self]
      constructor
      · intro h2
        rw [Option.some.injEq] at h2
        subst h2
        exact List.mem_cons_self _ _
      · intro hmem
        rcases List.mem_cons.mp hmem with heq | hmem
        · exact congrArg some (congrArg Prod.snd heq).symm
        · exact absurd (List.mem_map_of_mem Prod.fst hmem) hnd.1
    · rw [List.lookup_cons]
      have hbeq : (k == k') = false := by simpa using hk
      rw [hbeq]
      rw [lookup_eq_some_iff_mem ps hnd.2 k v]
      simp [List.mem_cons, Prod.mk.injEq, hk]

/-- The canonical time-unit names of the abbreviation table. -/
def timeUnitNames : List String :=
  ["nanosecond", "microsecond", "millisecond", "second", "minute", "hour", "day"]

/-- The time-unit abbreviations of the table. -/
def timeUnitAbbrevs : List String := ["ns", "us", "ms", "s", "m", "h", "d"]

/-- C3: for every metric carrying a time_unit, the check yields exactly one
redundant message when the last token of the split name equals the unit's
canonical name or is paired with it in the abbreviation table; otherwise
exactly one mismatch message when that token is one of the table's canonical
names or abbreviations; otherwise no message. -/
theorem C3_unit_in_name (m : Metric) (cfg : Config) (tu : String)
    (h : m.time_unit = some tu) :
    check_unit_in_name m cfg =
      (let t := (split_words m.name).getLastD ""
       if t = tu ∨ (tu, t) ∈ TIME_UNIT_ABBREV then [timeRedundantMsg t]
       else if t ∈ timeUnitNames ∨ t ∈ timeUnitAbbrevs then [timeMismatchMsg t]
       else []) := by
  have hnd : (TIME_UNIT_ABBREV.map Prod.fst).Nodup := by decide
  have hnames : TIME_UNIT_ABBREV.map Prod.fst = timeUnitNames := rfl
  have habbr : TIME_UNIT_ABBREV.map Prod.snd = timeUnitAbbrevs := rfl
  simp only [check_unit_in_name, h]
  set t := (split_words m.name).getLastD "" with ht
  have hiff : (TIME_UNIT_ABBREV.lookup tu = some t ∨ t = tu) ↔
      (t = tu ∨ (tu, t) ∈ TIME_UNIT_ABBREV) := by
    rw [lookup_eq_some_iff_mem TIME_UNIT_ABBREV hnd tu t, or_comm]
  by_cases hc1 : t = tu ∨ (tu, t) ∈ TIME_UNIT_ABBREV
  · rw [if_pos (hiff.mpr hc1), if_pos hc1]
  · rw [if_neg (fun hx => hc1 (hiff.mp hx)), if_neg hc1, hnames, habbr]

/-- A duration metric whose name ends in the abbreviation of its own unit. -/
def metricMs : Metric :=
  { category := "c", name := "load_time_ms", time_unit := some "millisecond" }

/-- A duration metric whose last token seconds is neither a canonical unit
name nor an abbreviation. -/
def metricSeconds : Metric :=
  { category := "c", name := "load_time_seconds", time_unit := some "millisecond" }

/-- A duration metric whose last token s is the abbreviation of a different
unit than its own. -/
def metricS : Metric :=
  { category := "c", name := "load_time_s", time_unit := some "millisecond" }

/-- C3 witness: the theorem at three concrete metrics, one per branch of the
trichotomy (redundant, silent, mismatch). -/
theorem C3_unit_in_name_witness :
    check_unit_in_name metricMs {} = [timeRedundantMsg "ms"] ∧
    check_unit_in_name metricSeconds {} = [] ∧
    check_unit_in_name metricS {} = [timeMismatchMsg "s"] := by
  refine ⟨?_, ?_, ?_⟩ <;>
  · rw [C3_unit_in_name _ {} "millisecond" rfl]
    decide

/-! ### Membership structure of the driver output -/

/-- An abbreviation for the input tree shape: category name to metric name
to metric. -/
abbrev MetricTree := List (String × List (String × Metric))

theorem mem_metricBlock {cfg : Config} {m : Metric}
    {cf : String × (Metric → Config → List String)} {nit : Nit}
    (h : nit ∈ metricBlock cfg m cf) :
    (nit = ("SUPERFLUOUS_NO_LINT", m.category ++ "." ++ m.name, superfluousMsg cf.1) ∧
        cf.2 m cfg = [] ∧ cf.1 ∉ CATEGORY_CHECKS.map Prod.fst ∧ cf.1 ∈ m.no_lint) ∨
    (nit.1 = cf.1 ∧ cf.1 ∉ m.no_lint ∧ nit.2.2 ∈ cf.2 m cfg ∧
        nit.2.1 = m.category ++ "." ++ m.name) := by
  simp only [metricBlock] at h
  by_cases hlen : (cf.2 m cfg).length ≠ 0
  · rw [if_pos hlen] at h
    by_cases hsup : cf.1 ∉ m.no_lint
    · rw [if_pos hsup] at h
      rcases List.mem_map.mp h with ⟨msg, hmsg, rfl⟩
      exact Or.inr ⟨rfl, hsup, hmsg, rfl⟩
    · rw [if_neg hsup] at h
      exact absurd h (List.not_mem_nil _)
  · rw [if_neg hlen] at h
    push_neg at hlen
    have hempty : cf.2 m cfg = [] := List.length_eq_zero.mp hlen
    by_cases hcond : cf.1 ∉ CATEGORY_CHECKS.map Prod.fst ∧ cf.1 ∈ m.no_lint
    · rw [if_pos hcond] at h
      rcases List.mem_singleton.mp h with rfl
      exact Or.inl ⟨rfl, hempty, hcond.1, hcond.2⟩
    · rw [if_neg hcond] at h
      exact absurd h (List.not_mem_nil _)

theorem mem_categoryBlock {cat : String} {mdict : List (String × Metric)}
    {cf : String × (String → List Metric → List String)} {nit : Nit}
    (h : nit ∈ categoryBlock cat mdict cf) :
    nit.1 = cf.1 ∧ ¬ (∃ km ∈ mdict, cf.1 ∈ km.2.no_lint) ∧
      nit.2.2 ∈ cf.2 cat (mdict.map Prod.snd) ∧ nit.2.1 = cat := by
  simp only [categoryBlock] at h
  by_cases hsup : ∃ km ∈ mdict, cf.1 ∈ km.2.no_lint
  · rw [if_pos hsup] at h
    exact absurd h (List.not_mem_nil _)
  · rw [if_neg hsup] at h
    rcases List.mem_map.mp h with ⟨msg, hmsg, rfl⟩
    exact ⟨rfl, hsup, hmsg, rfl⟩

theorem mem_metricNits {cfg : Config} {m : Metric} {nit : Nit}
    (h : nit ∈ metricNits cfg m) :
    nit.2.1 = m.category ++ "." ++ m.name ∧
      (nit.1 = "SUPERFLUOUS_NO_LINT" ∨
        ∃ f, (nit.1, f) ∈ INDIVIDUAL_CHECKS ∧ nit.1 ∉ m.no_lint ∧
          nit.2.2 ∈ f m cfg) := by
  rcases List.mem_flatMap.mp h with ⟨cf, hcf, hblk⟩
  rcases mem_metricBlock hblk with ⟨rfl, _, _, _⟩ | ⟨h1, h2, h3, h4⟩
  · exact ⟨rfl, Or.inl rfl⟩
  · refine ⟨h4, Or.inr ⟨cf.2, ?_, fun hx => h2 (h1 ▸ hx), h3⟩⟩
    rw [h1, Prod.mk.eta]
    exact hcf

theorem mem_lint_metrics_inv {objs : MetricTree} {cfg : Config} {nit : Nit}
    (h : nit ∈ lint_metrics objs cfg) :
    ∃ cm, cm ∈ objs ∧ cm.1 ≠ "pings" ∧
      (nit ∈ categoryNits cm.1 cm.2 ∨
        ∃ km, km ∈ cm.2 ∧ nit ∈ metricNits cfg km.2) := by
  rw [lint_metrics] at h
  rcases List.mem_flatMap.mp h with ⟨cm, hcm, hnit⟩
  rw [mem_sortLe] at hcm
  by_cases hp : cm.1 = "pings"
  · rw [if_pos hp] at hnit
    exact absurd hnit (List.not_mem_nil _)
  · rw [if_neg hp] at hnit
    rcases List.mem_append.mp hnit with hcat | hmet
    · exact ⟨cm, hcm, hp, Or.inl hcat⟩
    · rcases List.mem_flatMap.mp hmet with ⟨km, hkm, hn⟩
      rw [mem_sortLe] at hkm
      exact ⟨cm, hcm, hp, Or.inr ⟨km, hkm, hn⟩⟩

theorem metricNits_subset_lint {objs : MetricTree} {cfg : Config}
    {cat : String} {mdict : List (String × Metric)} {k : String} {m : Metric}
    (hcm : (cat, mdict) ∈ objs) (hcat : cat ≠ "pings") (hkm : (k, m) ∈ mdict)
    {nit : Nit} (hnit : nit ∈ metricNits cfg m) :
    nit ∈ lint_metrics objs cfg := by
  rw [lint_metrics]
  refine List.mem_flatMap.mpr ⟨(cat, mdict), (mem_sortLe _ _ _).mpr hcm, ?_⟩
  rw [if_neg hcat]
  exact List.mem_append_right _
    (List.mem_flatMap.mpr ⟨(k, m), (mem_sortLe _ _ _).mpr hkm, hnit⟩)

theorem categoryNits_subset_lint {objs : MetricTree} {cfg : Config}
    {cat : String} {mdict : List (String × Metric)}
    (hcm : (cat, mdict) ∈ objs) (hcat : cat ≠ "pings")
    {nit : Nit} (hnit : nit ∈ categoryNits cat mdict) :
    nit ∈ lint_metrics objs cfg := by
  rw [lint_metrics]
  refine List.mem_flatMap.mpr ⟨(cat, mdict), (mem_sortLe _ _ _).mpr hcm, ?_⟩
  rw [if_neg hcat]
  exact List.mem_append_left _ hnit

theorem ind_name_cases {cn : String} {f : Metric → Config → List String}
    (h : (cn, f) ∈ INDIVIDUAL_CHECKS) :
    (cn = "UNIT_IN_NAME" ∧ f = check_unit_in_name) ∨
    (cn = "BUG_NUMBER" ∧ f = check_bug_number) ∨
    (cn = "BASELINE_PING" ∧ f = check_valid_in_baseline) ∨
    (cn = "MISSPELLED_PING" ∧ f = check_misspelled_pings) := by
  simp only [INDIVIDUAL_CHECKS, List.mem_cons, List.not_mem_nil, or_false,
    Prod.mk.injEq] at h
  exact h

theorem cat_name_cases {cn : String} {f : String → List Metric → List String}
    (h : (cn, f) ∈ CATEGORY_CHECKS) :
    (cn = "COMMON_PREFIX" ∧ f = check_common_prefix) ∨
    (cn = "CATEGORY_GENERIC" ∧ f = check_category_generic) := by
  simp only [CATEGORY_CHECKS, List.mem_cons, List.not_mem_nil, or_false,
    Prod.mk.injEq] at h
  exact h

theorem dotted_scope_ne_pings (c n : String) : c ++ "." ++ n ≠ "pings" := by
  intro h
  have hdot : '.' ∈ (c ++ "." ++ n).data := by
    rw [String.data_append, String.data_append]
    exact List.mem_append_left _ (List.mem_append_right _ (by decide))
  rw [h] at hdot
  exact absurd hdot (by decide)

theorem ind_entry_cases {cf : String × (Metric → Config → List String)}
    (h : cf ∈ INDIVIDUAL_CHECKS) :
    cf = ("UNIT_IN_NAME", check_unit_in_name) ∨
    cf = ("BUG_NUMBER", check_bug_number) ∨
    cf = ("BASELINE_PING", check_valid_in_baseline) ∨
    cf = ("MISSPELLED_PING", check_misspelled_pings) := by
  simpa only [INDIVIDUAL_CHECKS, List.mem_cons, List.not_mem_nil, or_false] using h

theorem cat_entry_cases {cf : String × (String → List Metric → List String)}
    (h : cf ∈ CATEGORY_CHECKS) :
    cf = ("COMMON_PREFIX", check_common_prefix) ∨
    cf = ("CATEGORY_GENERIC", check_category_generic) := by
  simpa only [CATEGORY_CHECKS, List.mem_cons, List.not_mem_nil, or_false] using h

/-- C4: a check name listed in a metric's suppression list contributes no
finding for that metric (the metric's own contribution never carries that
name), and every finding in the returned list that carries an individual
check name originates from a metric that does not suppress that name — so a
suppressed check's findings are dropped from the returned list entirely,
not merely unprinted. -/
theorem C4_suppression_drops (objs : MetricTree) (cfg : Config) (m : Metric)
    (cn : String) (f : Metric → Config → List String)
    (hcf : (cn, f) ∈ INDIVIDUAL_CHECKS) (hsupp : cn ∈ m.no_lint) :
    (∀ scope msg, (cn, scope, msg) ∉ metricNits cfg m) ∧
    (∀ scope msg, (cn, scope, msg) ∈ lint_metrics objs cfg →
      ∃ cat mdict k m' f', (cat, mdict) ∈ objs ∧ (k, m') ∈ mdict ∧
        (cn, f') ∈ INDIVIDUAL_CHECKS ∧ cn ∉ m'.no_lint ∧ msg ∈ f' m' cfg ∧
        scope = m'.category ++ "." ++ m'.name) := by
  have hne_sup : cn ≠ "SUPERFLUOUS_NO_LINT" := by
    rcases ind_name_cases hcf with ⟨rfl, _⟩ | ⟨rfl, _⟩ | ⟨rfl, _⟩ | ⟨rfl, _⟩ <;> decide
  have hnot_cat : ∀ (g : String → List Metric → List String),
      (cn, g) ∉ CATEGORY_CHECKS := by
    intro g hg
    rcases cat_name_cases hg with ⟨h1, _⟩ | ⟨h1, _⟩ <;>
      rcases ind_name_cases hcf with ⟨rfl, _⟩ | ⟨rfl, _⟩ | ⟨rfl, _⟩ | ⟨rfl, _⟩ <;>
        exact absurd h1 (by decide)
  constructor
  · intro scope msg hmem
    rcases mem_metricNits hmem with ⟨_, hn⟩
    rcases hn with h1 | ⟨f', _, hns, _⟩
    · exact hne_sup h1
    · exact hns hsupp
  · intro scope msg hmem
    rcases mem_lint_metrics_inv hmem with ⟨cm, hcm, hp, hcase⟩
    rcases hcase with hcat | ⟨km, hkm, hmn⟩
    · rcases List.mem_flatMap.mp hcat with ⟨cf', hcf', hblk⟩
      rcases mem_categoryBlock hblk with ⟨h1, _, _, _⟩
      have hmemc : (cn, cf'.2) ∈ CATEGORY_CHECKS := by
        rw [show cn = cf'.1 from h1, Prod.mk.eta]
        exact hcf'
      exact absurd hmemc (hnot_cat cf'.2)
    · rcases mem_metricNits hmn with ⟨hscope, hn⟩
      rcases hn with h1 | ⟨f', hf', hns, hmsg⟩
      · exact absurd h1 hne_sup
      · obtain ⟨k, m'⟩ := km
        refine ⟨cm.1, cm.2, k, m', f', ?_, hkm, hf', hns, hmsg, hscope⟩
        rw [Prod.mk.eta]
        exact hcm

/-- A metric with an integer bug whose BUG_NUMBER findings are suppressed. -/
def metricSuppressed : Metric :=
  { category := "c", name := "m", bugs := [.num 5], no_lint := ["BUG_NUMBER"] }

/-- C4 witness: the theorem at a concrete suppressed metric whose bug check
would fire. -/
theorem C4_suppression_drops_witness :
    ("BUG_NUMBER", "c.m",
        "For bugs 5: Bug numbers are deprecated and should be changed to full URLs.") ∉
      metricNits {} metricSuppressed :=
  (C4_suppression_drops [] {} metricSuppressed "BUG_NUMBER" check_bug_number
      (by unfold INDIVIDUAL_CHECKS; exact List.Mem.tail _ (List.Mem.head _))
      (by decide)).1 "c.m"
    "For bugs 5: Bug numbers are deprecated and should be changed to full URLs."

theorem metricBlock_superfluous_eq (cfg : Config) (m : Metric)
    (cf : String × (Metric → Config → List String))
    (hempty : cf.2 m cfg = []) (hsupp : cf.1 ∈ m.no_lint)
    (hnotcat : cf.1 ∉ CATEGORY_CHECKS.map Prod.fst) :
    metricBlock cfg m cf =
      [("SUPERFLUOUS_NO_LINT", m.category ++ "." ++ m.name, superfluousMsg cf.1)] := by
  simp only [metricBlock, hempty]
  simp [hnotcat, hsupp]

theorem not_mem_metricBlock_of_ne (cfg : Config) (m : Metric)
    (cf : String × (Metric → Config → List String)) (t : Nit)
    (h1 : t.1 ≠ cf.1) (h2 : t.2.2 ≠ superfluousMsg cf.1) :
    t ∉ metricBlock cfg m cf := by
  intro hmem
  rcases mem_metricBlock hmem with ⟨heq, _, _, _⟩ | ⟨hname, _, _, _⟩
  · exact h2 (by rw [heq])
  · exact h1 hname

/-- C5: for a metric whose suppression list names an individual check that
yields no message (and whose name is not a category-level check name), the
metric's contribution carries exactly one SUPERFLUOUS_NO_LINT finding
scoped to category.name and naming the unused entry, and that finding
appears in the list returned by lint_metrics. -/
theorem C5_superfluous_no_lint (objs : MetricTree) (cfg : Config)
    (cat : String) (mdict : List (String × Metric)) (k : String) (m : Metric)
    (cn : String) (f : Metric → Config → List String)
    (hcf : (cn, f) ∈ INDIVIDUAL_CHECKS) (hempty : f m cfg = [])
    (hsupp : cn ∈ m.no_lint) (hnotcat : cn ∉ CATEGORY_CHECKS.map Prod.fst) :
    (metricNits cfg m).count
        ("SUPERFLUOUS_NO_LINT", m.category ++ "." ++ m.name, superfluousMsg cn) = 1 ∧
    ((cat, mdict) ∈ objs → cat ≠ "pings" → (k, m) ∈ mdict →
      ("SUPERFLUOUS_NO_LINT", m.category ++ "." ++ m.name, superfluousMsg cn) ∈
        lint_metrics objs cfg) := by
  have hmem : ("SUPERFLUOUS_NO_LINT", m.category ++ "." ++ m.name, superfluousMsg cn) ∈
      metricNits cfg m := by
    refine List.mem_flatMap.mpr ⟨(cn, f), hcf, ?_⟩
    rw [metricBlock_superfluous_eq cfg m (cn, f) hempty hsupp hnotcat]
    exact List.mem_singleton.mpr rfl
  refine ⟨?_, fun hcm hcat hkm => metricNits_subset_lint hcm hcat hkm hmem⟩
  rcases ind_name_cases hcf with ⟨rfl, rfl⟩ | ⟨rfl, rfl⟩ | ⟨rfl, rfl⟩ | ⟨rfl, rfl⟩
  · have e1 : metricBlock cfg m ("UNIT_IN_NAME", check_unit_in_name) =
        [("SUPERFLUOUS_NO_LINT", m.category ++ "." ++ m.name,
          superfluousMsg "UNIT_IN_NAME")] :=
      metricBlock_superfluous_eq cfg m _ hempty hsupp hnotcat
    have z2 : List.count (("SUPERFLUOUS_NO_LINT" : String),
        m.category ++ "." ++ m.name, superfluousMsg "UNIT_IN_NAME")
        (metricBlock cfg m ("BUG_NUMBER", check_bug_number)) = 0 :=
      List.count_eq_zero.mpr
        (not_mem_metricBlock_of_ne cfg m _ _
          ((by decide : ("SUPERFLUOUS_NO_LINT" : String) ≠ "BUG_NUMBER"))
          ((by decide : superfluousMsg "UNIT_IN_NAME" ≠ superfluousMsg "BUG_NUMBER")))
    have z3 : List.count (("SUPERFLUOUS_NO_LINT" : String),
        m.category ++ "." ++ m.name, superfluousMsg "UNIT_IN_NAME")
        (metricBlock cfg m ("BASELINE_PING", check_valid_in_baseline)) = 0 :=
      List.count_eq_zero.mpr
        (not_mem_metricBlock_of_ne cfg m _ _
          ((by decide : ("SUPERFLUOUS_NO_LINT" : String) ≠ "BASELINE_PING"))
          ((by decide : superfluousMsg "UNIT_IN_NAME" ≠ superfluousMsg "BASELINE_PING")))
    have z4 : List.count (("SUPERFLUOUS_NO_LINT" : String),
        m.category ++ "." ++ m.name, superfluousMsg "UNIT_IN_NAME")
        (metricBlock cfg m ("MISSPELLED_PING", check_misspelled_pings)) = 0 :=
      List.count_eq_zero.mpr
        (not_mem_metricBlock_of_ne cfg m _ _
          ((by decide : ("SUPERFLUOUS_NO_LINT" : String) ≠ "MISSPELLED_PING"))
          ((by decide : superfluousMsg "UNIT_IN_NAME" ≠ superfluousMsg "MISSPELLED_PING")))
    simp [metricNits, INDIVIDUAL_CHECKS, List.count_append, e1, z2, z3, z4]
  · have e1 : metricBlock cfg m ("BUG_NUMBER", check_bug_number) =
        [("SUPERFLUOUS_NO_LINT", m.category ++ "." ++ m.name,
          superfluousMsg "BUG_NUMBER")] :=
      metricBlock_superfluous_eq cfg m _ hempty hsupp hnotcat
    have z2 : List.count (("SUPERFLUOUS_NO_LINT" : String),
        m.category ++ "." ++ m.name, superfluousMsg "BUG_NUMBER")
        (metricBlock cfg m ("UNIT_IN_NAME", check_unit_in_name)) = 0 :=
      List.count_eq_zero.mpr
        (not_mem_metricBlock_of_ne cfg m _ _
          ((by decide : ("SUPERFLUOUS_NO_LINT" : String) ≠ "UNIT_IN_NAME"))
          ((by decide : superfluousMsg "BUG_NUMBER" ≠ superfluousMsg "UNIT_IN_NAME")))
    have z3 : List.count (("SUPERFLUOUS_NO_LINT" : String),
        m.category ++ "." ++ m.name, superfluousMsg "BUG_NUMBER")
        (metricBlock cfg m ("BASELINE_PING", check_valid_in_baseline)) = 0 :=
      List.count_eq_zero.mpr
        (not_mem_metricBlock_of_ne cfg m _ _
          ((by decide : ("SUPERFLUOUS_NO_LINT" : String) ≠ "BASELINE_PING"))
          ((by decide : superfluousMsg "BUG_NUMBER" ≠ superfluousMsg "BASELINE_PING")))
    have z4 : List.count (("SUPERFLUOUS_NO_LINT" : String),
        m.category ++ "." ++ m.name, superfluousMsg "BUG_NUMBER")
        (metricBlock cfg m ("MISSPELLED_PING", check_misspelled_pings)) = 0 :=
      List.count_eq_zero.mpr
        (not_mem_metricBlock_of_ne cfg m _ _
          ((by decide : ("SUPERFLUOUS_NO_LINT" : String) ≠ "MISSPELLED_PING"))
          ((by decide : superfluousMsg "BUG_NUMBER" ≠ superfluousMsg "MISSPELLED_PING")))
    simp [metricNits, INDIVIDUAL_CHECKS, List.count_append, e1, z2, z3, z4]
  · have e1 : metricBlock cfg m ("BASELINE_PING", check_valid_in_baseline) =
        [("SUPERFLUOUS_NO_LINT", m.category ++ "." ++ m.name,
          superfluousMsg "BASELINE_PING")] :=
      metricBlock_superfluous_eq cfg m _ hempty hsupp hnotcat
    have z2 : List.count (("SUPERFLUOUS_NO_LINT" : String),
        m.category ++ "." ++ m.name, superfluousMsg "BASELINE_PING")
        (metricBlock cfg m ("UNIT_IN_NAME", check_unit_in_name)) = 0 :=
      List.count_eq_zero.mpr
        (not_mem_metricBlock_of_ne cfg m _ _
          ((by decide : ("SUPERFLUOUS_NO_LINT" : String) ≠ "UNIT_IN_NAME"))
          ((by decide : superfluousMsg "BASELINE_PING" ≠ superfluousMsg "UNIT_IN_NAME")))
    have z3 : List.count (("SUPERFLUOUS_NO_LINT" : String),
        m.category ++ "." ++ m.name, superfluousMsg "BASELINE_PING")
        (metricBlock cfg m ("BUG_NUMBER", check_bug_number)) = 0 :=
      List.count_eq_zero.mpr
        (not_mem_metricBlock_of_ne cfg m _ _
          ((by decide : ("SUPERFLUOUS_NO_LINT" : String) ≠ "BUG_NUMBER"))
          ((by decide : superfluousMsg "BASELINE_PING" ≠ superfluousMsg "BUG_NUMBER")))
    have z4 : List.count (("SUPERFLUOUS_NO_LINT" : String),
        m.category ++ "." ++ m.name, superfluousMsg "BASELINE_PING")
        (metricBlock cfg m ("MISSPELLED_PING", check_misspelled_pings)) = 0 :=
      List.count_eq_zero.mpr
        (not_mem_metricBlock_of_ne cfg m _ _
          ((by decide : ("SUPERFLUOUS_NO_LINT" : String) ≠ "MISSPELLED_PING"))
          ((by decide : superfluousMsg "BASELINE_PING" ≠ superfluousMsg "MISSPELLED_PING")))
    simp [metricNits, INDIVIDUAL_CHECKS, List.count_append, e1, z2, z3, z4]
  · have e1 : metricBlock cfg m ("MISSPELLED_PING", check_misspelled_pings) =
        [("SUPERFLUOUS_NO_LINT", m.category ++ "." ++ m.name,
          superfluousMsg "MISSPELLED_PING")] :=
      metricBlock_superfluous_eq cfg m _ hempty hsupp hnotcat
    have z2 : List.count (("SUPERFLUOUS_NO_LINT" : String),
        m.category ++ "." ++ m.name, superfluousMsg "MISSPELLED_PING")
        (metricBlock cfg m ("UNIT_IN_NAME", check_unit_in_name)) = 0 :=
      List.count_eq_zero.mpr
        (not_mem_metricBlock_of_ne cfg m _ _
          ((by decide : ("SUPERFLUOUS_NO_LINT" : String) ≠ "UNIT_IN_NAME"))
          ((by decide : superfluousMsg "MISSPELLED_PING" ≠ superfluousMsg "UNIT_IN_NAME")))
    have z3 : List.count (("SUPERFLUOUS_NO_LINT" : String),
        m.category ++ "." ++ m.name, superfluousMsg "MISSPELLED_PING")
        (metricBlock cfg m ("BUG_NUMBER", check_bug_number)) = 0 :=
      List.count_eq_zero.mpr
        (not_mem_metricBlock_of_ne cfg m _ _
          ((by decide : ("SUPERFLUOUS_NO_LINT" : String) ≠ "BUG_NUMBER"))
          ((by decide : superfluousMsg "MISSPELLED_PING" ≠ superfluousMsg "BUG_NUMBER")))
    have z4 : List.count (("SUPERFLUOUS_NO_LINT" : String),
        m.category ++ "." ++ m.name, superfluousMsg "MISSPELLED_PING")
        (metricBlock cfg m ("BASELINE_PING", check_valid_in_baseline)) = 0 :=
      List.count_eq_zero.mpr
        (not_mem_metricBlock_of_ne cfg m _ _
          ((by decide : ("SUPERFLUOUS_NO_LINT" : String) ≠ "BASELINE_PING"))
          ((by decide : superfluousMsg "MISSPELLED_PING" ≠ superfluousMsg "BASELINE_PING")))
    simp [metricNits, INDIVIDUAL_CHECKS, List.count_append, e1, z2, z3, z4]

/-- A metric with no integer bugs but a stale BUG_NUMBER suppression. -/
def metricStale : Metric :=
  { category := "acat", name := "m1", no_lint := ["BUG_NUMBER"] }

/-- C5 witness: the theorem at a concrete metric with a stale suppression,
inside a one-category tree. -/
theorem C5_superfluous_no_lint_witness :
    (metricNits {} metricStale).count
        ("SUPERFLUOUS_NO_LINT", metricStale.category ++ "." ++ metricStale.name,
          superfluousMsg "BUG_NUMBER") = 1 ∧
    ("SUPERFLUOUS_NO_LINT", metricStale.category ++ "." ++ metricStale.name,
        superfluousMsg "BUG_NUMBER") ∈
      lint_metrics [("acat", [("m1", metricStale)])] {} := by
  have h := C5_superfluous_no_lint [("acat", [("m1", metricStale)])] {} "acat"
      [("m1", metricStale)] "m1" metricStale "BUG_NUMBER" check_bug_number
      (by unfold INDIVIDUAL_CHECKS; exact List.Mem.tail _ (List.Mem.head _)) rfl
      (by decide) (by decide)
  exact ⟨h.1, h.2 (List.mem_singleton.mpr rfl) (by decide) (List.mem_singleton.mpr rfl)⟩

/-- C6: for a category-level check, if any metric of the category lists the
check name in its suppression list the check contributes nothing for that
category, and no superfluous-suppression finding is ever produced for a
category-check name (the superfluous branch excludes category-check names);
otherwise every message the check yields becomes a finding scoped to the
category name, and it appears in the returned list. -/
theorem C6_category_check_suppression (objs : MetricTree) (cfg : Config)
    (cat : String) (mdict : List (String × Metric)) (cn : String)
    (f : String → List Metric → List String)
    (hcf : (cn, f) ∈ CATEGORY_CHECKS) :
    ((∃ km ∈ mdict, cn ∈ km.2.no_lint) →
      ∀ msg, (cn, cat, msg) ∉ categoryNits cat mdict) ∧
    ((¬ ∃ km ∈ mdict, cn ∈ km.2.no_lint) →
      ∀ msg ∈ f cat (mdict.map Prod.snd),
        (cn, cat, msg) ∈ categoryNits cat mdict ∧
        ((cat, mdict) ∈ objs → cat ≠ "pings" →
          (cn, cat, msg) ∈ lint_metrics objs cfg)) ∧
    (∀ m' : Metric,
      ("SUPERFLUOUS_NO_LINT", m'.category ++ "." ++ m'.name, superfluousMsg cn) ∉
        metricNits cfg m') := by
  refine ⟨?_, ?_, ?_⟩
  · intro hsupp msg hmem
    rcases List.mem_flatMap.mp hmem with ⟨cf', _, hblk⟩
    rcases mem_categoryBlock hblk with ⟨h1, hnsup, _, _⟩
    rw [← show (cn, cat, msg).1 = cf'.1 from h1] at hnsup
    exact hnsup hsupp
  · intro hnsup msg hmsg
    have hin : (cn, cat, msg) ∈ categoryBlock cat mdict (cn, f) := by
      simp only [categoryBlock]
      rw [if_neg hnsup]
      exact List.mem_map.mpr ⟨msg, hmsg, rfl⟩
    have hcatn : (cn, cat, msg) ∈ categoryNits cat mdict :=
      List.mem_flatMap.mpr ⟨(cn, f), hcf, hin⟩
    exact ⟨hcatn, fun hcm hcat => categoryNits_subset_lint hcm hcat hcatn⟩
  · intro m' hmem
    rcases List.mem_flatMap.mp hmem with ⟨cf', hcf', hblk⟩
    rcases mem_metricBlock hblk with ⟨heq, _, _, _⟩ | ⟨hname, _, _, _⟩
    · have h3 : superfluousMsg cn = superfluousMsg cf'.1 :=
        congrArg (fun p : Nit => p.2.2) heq
      rcases cat_name_cases hcf with ⟨rfl, _⟩ | ⟨rfl, _⟩ <;>
        rcases ind_entry_cases hcf' with rfl | rfl | rfl | rfl <;>
          exact absurd h3 (by decide)
    · rcases ind_entry_cases hcf' with rfl | rfl | rfl | rfl <;> simp at hname

/-- A metric in a generic category that suppresses the COMMON_PREFIX check. -/
def metricNoPrefix : Metric :=
  { category := "cat2", name := "x_a", no_lint := ["COMMON_PREFIX"] }

/-- C6 witness: the theorem at a category with a suppressed common-prefix
check, at an unsuppressed generic category inside a one-category tree, and
at a concrete metric for the no-category-superfluous part. -/
theorem C6_category_check_suppression_witness :
    ("COMMON_PREFIX", "cat2", commonPrefixMsg "cat2" "x") ∉
        categoryNits "cat2" [("x_a", metricNoPrefix), ("x_b", metricXB)] ∧
    ("CATEGORY_GENERIC", "metrics", "Category 'metrics' is too generic.") ∈
        lint_metrics [("metrics", [("m", metricAB)])] {} ∧
    ("SUPERFLUOUS_NO_LINT", metricAB.category ++ "." ++ metricAB.name,
        superfluousMsg "COMMON_PREFIX") ∉ metricNits {} metricAB := by
  refine ⟨?_, ?_, ?_⟩
  · exact (C6_category_check_suppression [] {} "cat2"
        [("x_a", metricNoPrefix), ("x_b", metricXB)] "COMMON_PREFIX"
        check_common_prefix
        (by unfold CATEGORY_CHECKS; exact List.Mem.head _)).1
      (by decide) (commonPrefixMsg "cat2" "x")
  · have h := ((C6_category_check_suppression [("metrics", [("m", metricAB)])] {}
        "metrics" [("m", metricAB)] "CATEGORY_GENERIC" check_category_generic
        (by unfold CATEGORY_CHECKS; exact List.Mem.tail _ (List.Mem.head _))).2.1
      (by decide) "Category 'metrics' is too generic." (by decide)).2
    exact h (List.mem_singleton.mpr rfl) (by decide)
  · exact (C6_category_check_suppression [] {} "c" [] "COMMON_PREFIX"
        check_common_prefix
        (by unfold CATEGORY_CHECKS; exact List.Mem.head _)).2.2 metricAB

/-! ### Independence from the pings category -/

theorem flatMap_eq_flatMap_filter {α β : Type} (g : α → List β) (p : α → Bool)
    (l : List α) (hg : ∀ x, p x = false → g x = []) :
    l.flatMap g = (l.filter p).flatMap g := by
  induction l with
  | nil => rfl
  | cons x xs ih =>
    by_cases hx : p x = true
    · simp [List.filter_cons, hx, ih]
    · have hx' : p x = false := by simpa using hx
      simp [List.filter_cons, hx', hg x hx', ih]

theorem lint_metrics_filter_pings (objs : MetricTree) (cfg : Config) :
    lint_metrics objs cfg =
      lint_metrics (objs.filter (fun cm => cm.1 != "pings")) cfg := by
  rw [lint_metrics, lint_metrics,
    ← filter_sortLe keyLe keyLe_total keyLe_trans (fun cm => cm.1 != "pings") objs]
  refine flatMap_eq_flatMap_filter _ _ _ (fun cm hcm => ?_)
  have hp : cm.1 = "pings" := by simpa using hcm
  simp [hp]

/-- C7: the result of lint_metrics depends only on the tree outside the
pings category: two trees whose non-pings entries agree produce identical
finding lists, and no returned finding is scoped to the pings category
(category scopes are non-pings category names and metric scopes contain a
dot). -/
theorem C7_pings_ignored (objs1 objs2 : MetricTree) (cfg : Config)
    (h : objs1.filter (fun cm => cm.1 != "pings") =
        objs2.filter (fun cm => cm.1 != "pings")) :
    lint_metrics objs1 cfg = lint_metrics objs2 cfg ∧
    (∀ cn msg, (cn, "pings", msg) ∉ lint_metrics objs1 cfg) := by
  constructor
  · rw [lint_metrics_filter_pings objs1 cfg, lint_metrics_filter_pings objs2 cfg, h]
  · intro cn msg hmem
    rcases mem_lint_metrics_inv hmem with ⟨cm, _, hp, hcase⟩
    rcases hcase with hcat | ⟨km, _, hmn⟩
    · rcases List.mem_flatMap.mp hcat with ⟨cf', _, hblk⟩
      rcases mem_categoryBlock hblk with ⟨_, _, _, hscope⟩
      exact hp hscope.symm
    · rcases mem_metricNits hmn with ⟨hscope, _⟩
      exact dotted_scope_ne_pings _ _ hscope.symm

/-- A metric with several lint findings and a bogus suppression entry. -/
def metricWeird : Metric :=
  { category := "x"
    name := "y"
    bugs := [.num 3]
    send_in_pings := ["baseline"]
    no_lint := ["NOT_A_CHECK"] }

/-- A tree with a malformed pings category next to an ordinary category. -/
def treeWithPings : MetricTree :=
  [("pings", [("weird", metricWeird)]), ("cat", [("m", metricAB)])]

/-- The same tree with the pings category absent. -/
def treeNoPings : MetricTree := [("cat", [("m", metricAB)])]

/-- C7 witness: the theorem at a concrete pair of trees differing only in
the pings category. -/
theorem C7_pings_ignored_witness :
    lint_metrics treeWithPings {} = lint_metrics treeNoPings {} ∧
    ("BUG_NUMBER", "pings", "boom") ∉ lint_metrics treeWithPings {} :=
  ⟨(C7_pings_ignored treeWithPings treeNoPings {} (by decide)).1,
   (C7_pings_ignored treeWithPings treeNoPings {} (by decide)).2 "BUG_NUMBER" "boom"⟩

/-! ### Determinism and output order -/

/-- C8: the returned list is the concatenation, over categories in ascending
name order (the traversal list is pairwise key-ordered and a permutation of
the input), skipping pings, of the category-level nits in registry order
followed by the per-metric nits of the metrics in ascending name order
(likewise pairwise ordered and a permutation), each metric contributing its
checks in registry order; and equal inputs give equal outputs. -/
theorem C8_deterministic_order (objs : MetricTree) (cfg : Config) :
    lint_metrics objs cfg =
      (sortLe keyLe objs).flatMap (fun cm =>
        if cm.1 = "pings" then []
        else categoryNits cm.1 cm.2 ++
          (sortLe keyLe cm.2).flatMap (fun km => metricNits cfg km.2)) ∧
    (sortLe keyLe objs).Pairwise (fun a b => keyLe a b = true) ∧
    (sortLe keyLe objs).Perm objs ∧
    (∀ mdict : List (String × Metric),
      (sortLe keyLe mdict).Pairwise (fun a b => keyLe a b = true) ∧
        (sortLe keyLe mdict).Perm mdict) ∧
    (∀ objs' : MetricTree, objs' = objs →
      lint_metrics objs' cfg = lint_metrics objs cfg) :=
  ⟨rfl, pairwise_sortLe keyLe keyLe_total keyLe_trans objs,
    perm_sortLe keyLe objs,
    fun mdict => ⟨pairwise_sortLe keyLe keyLe_total keyLe_trans mdict,
      perm_sortLe keyLe mdict⟩,
    fun _ h => by rw [h]⟩

/-- C8 witness: the theorem at a concrete two-category tree given in
descending order. -/
theorem C8_deterministic_order_witness :
    lint_metrics ([("b", []), ("a", [])] : MetricTree) {} =
      (sortLe keyLe ([("b", []), ("a", [])] : MetricTree)).flatMap (fun cm =>
        if cm.1 = "pings" then []
        else categoryNits cm.1 cm.2 ++
          (sortLe keyLe cm.2).flatMap (fun km => metricNits {} km.2)) ∧
    (sortLe keyLe ([("b", []), ("a", [])] : MetricTree)).Perm
      ([("b", []), ("a", [])] : MetricTree) ∧
    lint_metrics ([("b", []), ("a", [])] : MetricTree) {} =
      lint_metrics ([("b", []), ("a", [])] : MetricTree) {} := by
  have h := C8_deterministic_order ([("b", []), ("a", [])] : MetricTree) {}
  exact ⟨h.1, h.2.2.1, h.2.2.2.2 _ rfl⟩

end Glean
